import Mathlib

/-!
Verification of the `gmec` pattern-search core and error-chain utility.

The Rust sources are embedded shallowly:
* `PatternMatch<T>` becomes the structure `PatternMatch T`.
* The generic-sequence backing `impl PatternMatcher for [T]` is embedded over
  `List α`; Rust's panicking slice expression `&self[byte_offset..]` is made
  explicit by giving `find_first_from` the result type `Except Unit _`, where
  `Except.error ()` marks a panic (index out of range).
* The trait's default combinators (`find_every_from`, `find_any_from`,
  `find_all_from` and the offset-zero wrappers) are embedded as functions over
  an arbitrary primitive `ff`, exactly as the trait defines them over any
  implementation of `find_first_from`.  The `loop` in `find_every_from` need
  not terminate (a zero-length match does not advance the cursor), so it is
  embedded with an explicit fuel argument: the result `none` means the loop
  did not finish within the given fuel.
* The error-chain utility of `types/error_chain.rs` is embedded with the
  context type `γ` and the cause type `ε` as parameters; the lazily computed
  context is a function `Unit → γ`.
-/

/-- Rust `PatternMatch<T> { index, length, slice }`. -/
structure PatternMatch (T : Type) where
  index : Nat
  length : Nat
  slice : T
deriving DecidableEq, Repr

/-- Rust `PatternMatch::start`. -/
def PatternMatch.start (m : PatternMatch T) : Nat :=
  m.index

/-- Rust `PatternMatch::end`. -/
def PatternMatch.«end» (m : PatternMatch T) : Nat :=
  m.index + m.length

/-- Rust `PatternMatch::range`, the pair `index .. index+length`
(`std::ops::Range` is a start/end pair). -/
def PatternMatch.range (m : PatternMatch T) : Nat × Nat :=
  (m.index, m.index + m.length)

/-- Rust slice expression `&l[a..b]` (for in-range `a ≤ b ≤ l.length`). -/
def listSlice (l : List α) (a b : Nat) : List α :=
  (l.take b).drop a

/-- The scan loop of `<[T] as PatternMatcher>::find_first_from`:
`for compare_start in 0..offset_slice.len() { ... }`.
The extra fuel argument is a loop bound; the caller passes
`offsetSlice.length`, which always suffices because `compareStart` grows by
one per iteration and the loop stops at `offsetSlice.length`. -/
def findLoop [DecidableEq α] (source pattern offsetSlice : List α)
    (byteOffset : Nat) : Nat → Nat → Option (PatternMatch (List α))
  | _, 0 => none
  | compareStart, fuel + 1 =>
    if compareStart < offsetSlice.length then
      if compareStart + pattern.length > offsetSlice.length then
        none
      else if listSlice offsetSlice compareStart (compareStart + pattern.length) = pattern then
        some { index := compareStart + byteOffset, length := pattern.length,
               slice := listSlice source (compareStart + byteOffset)
                          (compareStart + byteOffset + pattern.length) }
      else
        findLoop source pattern offsetSlice byteOffset (compareStart + 1) fuel
    else
      none

/-- Rust `<[T] as PatternMatcher>::find_first_from`.  The slice expression
`&self[byte_offset..]` panics when `byte_offset > self.len()`; the panic is
the `Except.error ()` outcome. -/
def find_first_from [DecidableEq α] (source pattern : List α) (byteOffset : Nat) :
    Except Unit (Option (PatternMatch (List α))) :=
  if byteOffset ≤ source.length then
    .ok (findLoop source pattern (source.drop byteOffset) byteOffset 0
          (source.drop byteOffset).length)
  else
    .error ()

/-- The non-panicking part of `find_first_from`: the match (if any) that the
scan produces for an in-range offset. -/
def primFirst [DecidableEq α] (source pattern : List α) (byteOffset : Nat) :
    Option (PatternMatch (List α)) :=
  findLoop source pattern (source.drop byteOffset) byteOffset 0
    (source.drop byteOffset).length

/-- Rust trait default `PatternMatcher::find_first`. -/
def find_first (ff : PT → Nat → Except Unit (Option (PatternMatch MT)))
    (pattern : PT) : Except Unit (Option (PatternMatch MT)) :=
  ff pattern 0

/-- The `loop` of `PatternMatcher::find_every_from`, with fuel: `none` means
the loop did not finish within `fuel` iterations (the Rust loop diverges on a
zero-length match, which leaves `total_offset` unchanged). -/
def findEveryLoop (ff : Nat → Except Unit (Option (PatternMatch MT))) :
    Nat → Nat → List (PatternMatch MT) → Option (Except Unit (List (PatternMatch MT)))
  | 0, _, _ => none
  | fuel + 1, totalOffset, matchesVec =>
    match ff totalOffset with
    | .error e => some (.error e)
    | .ok (some foundMatch) =>
        findEveryLoop ff fuel (PatternMatch.«end» foundMatch) (matchesVec ++ [foundMatch])
    | .ok none => some (.ok matchesVec)

/-- Rust trait default `PatternMatcher::find_every_from` (fuelled). -/
def find_every_from (ff : PT → Nat → Except Unit (Option (PatternMatch MT)))
    (pattern : PT) (byteOffset fuel : Nat) :
    Option (Except Unit (Option (List (PatternMatch MT)))) :=
  match findEveryLoop (ff pattern) fuel byteOffset [] with
  | none => none
  | some (.error e) => some (.error e)
  | some (.ok matchesVec) => some (.ok (if matchesVec.isEmpty then none else some matchesVec))

/-- Rust trait default `PatternMatcher::find_every` (fuelled). -/
def find_every (ff : PT → Nat → Except Unit (Option (PatternMatch MT)))
    (pattern : PT) (fuel : Nat) :
    Option (Except Unit (Option (List (PatternMatch MT)))) :=
  find_every_from ff pattern 0 fuel

/-- The first `for` loop of `PatternMatcher::find_any_from`: collect the first
match of every pattern (at the same `byte_offset`), in collection order. -/
def collectFirsts (ff : PT → Nat → Except Unit (Option (PatternMatch MT))) :
    List PT → Nat → Except Unit (List (PatternMatch MT))
  | [], _ => .ok []
  | pattern :: rest, byteOffset =>
    match ff pattern byteOffset with
    | .error e => .error e
    | .ok (some foundMatch) =>
        match collectFirsts ff rest byteOffset with
        | .error e => .error e
        | .ok matchesVec => .ok (foundMatch :: matchesVec)
    | .ok none => collectFirsts ff rest byteOffset

/-- Rust `usize::MAX`, the initial value of `earliest_index`. -/
def usizeMax : Nat := 2 ^ 64 - 1

/-- The second `for` loop of `PatternMatcher::find_any_from`: keep the first
match whose index is a strict minimum
(`earliest_match.is_none() || current_match.index < earliest_index`). -/
def selectEarliest : List (PatternMatch MT) → Option (PatternMatch MT) → Nat →
    Option (PatternMatch MT)
  | [], earliestMatch, _ => earliestMatch
  | currentMatch :: rest, earliestMatch, earliestIndex =>
    if earliestMatch.isNone || decide (currentMatch.index < earliestIndex) then
      selectEarliest rest (some currentMatch) currentMatch.index
    else
      selectEarliest rest earliestMatch earliestIndex

/-- Rust trait default `PatternMatcher::find_any_from`. -/
def find_any_from (ff : PT → Nat → Except Unit (Option (PatternMatch MT)))
    (patterns : List PT) (byteOffset : Nat) : Except Unit (Option (PatternMatch MT)) :=
  match collectFirsts ff patterns byteOffset with
  | .error e => .error e
  | .ok matchesVec => .ok (selectEarliest matchesVec none usizeMax)

/-- Rust trait default `PatternMatcher::find_any`. -/
def find_any (ff : PT → Nat → Except Unit (Option (PatternMatch MT)))
    (patterns : List PT) : Except Unit (Option (PatternMatch MT)) :=
  find_any_from ff patterns 0

/-- The `for` loop of `PatternMatcher::find_all_from`: append the
`find_every_from` result of every pattern, in collection order. -/
def findAllLoop (ff : PT → Nat → Except Unit (Option (PatternMatch MT)))
    (byteOffset fuel : Nat) :
    List PT → List (PatternMatch MT) → Option (Except Unit (List (PatternMatch MT)))
  | [], matchesVec => some (.ok matchesVec)
  | pattern :: rest, matchesVec =>
    match find_every_from ff pattern byteOffset fuel with
    | none => none
    | some (.error e) => some (.error e)
    | some (.ok (some foundMatches)) => findAllLoop ff byteOffset fuel rest (matchesVec ++ foundMatches)
    | some (.ok none) => findAllLoop ff byteOffset fuel rest matchesVec

/-- Rust trait default `PatternMatcher::find_all_from` (fuelled). -/
def find_all_from (ff : PT → Nat → Except Unit (Option (PatternMatch MT)))
    (patterns : List PT) (byteOffset fuel : Nat) :
    Option (Except Unit (Option (List (PatternMatch MT)))) :=
  match findAllLoop ff byteOffset fuel patterns [] with
  | none => none
  | some (.error e) => some (.error e)
  | some (.ok matchesVec) => some (.ok (if matchesVec.isEmpty then none else some matchesVec))

/-- Rust trait default `PatternMatcher::find_all` (fuelled). -/
def find_all (ff : PT → Nat → Except Unit (Option (PatternMatch MT)))
    (patterns : List PT) (fuel : Nat) :
    Option (Except Unit (Option (List (PatternMatch MT)))) :=
  find_all_from ff patterns 0 fuel

/-- `pattern` matchesVec in `source` exactly at start index `i`. -/
def MatchAt (source pattern : List α) (i : Nat) : Prop :=
  i + pattern.length ≤ source.length ∧
    listSlice source i (i + pattern.length) = pattern

instance [DecidableEq α] (source pattern : List α) (i : Nat) :
    Decidable (MatchAt source pattern i) :=
  inferInstanceAs (Decidable (_ ∧ _))

/-- `pattern` occurs in `source` at some start index `≥ offset`. -/
def Occurs (source pattern : List α) (offset : Nat) : Prop :=
  ∃ i, offset ≤ i ∧ MatchAt source pattern i

/-- The data-model invariant of a `PatternMatch` tied to `source`:
`index + length ≤ length(source)` and the stored view is
`source[index .. index+length]`. -/
def MatchInv (source : List α) (m : PatternMatch (List α)) : Prop :=
  m.index + m.length ≤ source.length ∧
    m.slice = listSlice source m.index (m.index + m.length)

instance [DecidableEq α] (source : List α) (m : PatternMatch (List α)) :
    Decidable (MatchInv source m) :=
  inferInstanceAs (Decidable (_ ∧ _))

instance [DecidableEq ε] [DecidableEq β] : DecidableEq (Except ε β) := fun a b =>
  match a, b with
  | .error x, .error y => decidable_of_iff (x = y) (by simp)
  | .error _, .ok _ => isFalse (fun h => Except.noConfusion h)
  | .ok _, .error _ => isFalse (fun h => Except.noConfusion h)
  | .ok x, .ok y => decidable_of_iff (x = y) (by simp)

-- Sanity checks mirroring the repository's tests.
example :
    find_first_from "hello world".toList "world".toList 0 =
      .ok (some ⟨6, 5, "world".toList⟩) := by decide

example :
    find_every_from (find_first_from "hello world".toList) "l".toList 0 12 =
      some (.ok (some [⟨2, 1, ['l']⟩, ⟨3, 1, ['l']⟩, ⟨9, 1, ['l']⟩])) := by decide

example :
    find_any (find_first_from "hello world".toList)
      ["world".toList, "foo".toList, "bar".toList] =
      .ok (some ⟨6, 5, "world".toList⟩) := by decide

example :
    find_all (find_first_from "hello world".toList) ["l".toList, "o".toList] 12 =
      some (.ok (some [⟨2, 1, ['l']⟩, ⟨3, 1, ['l']⟩, ⟨9, 1, ['l']⟩,
                       ⟨4, 1, ['o']⟩, ⟨7, 1, ['o']⟩])) := by decide

/-! ### The error-chain utility (`types/error_chain.rs`) -/

/-- Rust `ErrorChain { context, cause }` with the `Display` context type `γ`
and the boxed cause type `ε` as parameters. -/
structure ErrorChain (γ ε : Type) where
  context : γ
  cause : Option ε
deriving DecidableEq, Repr

/-- Rust `ErrorChain::new`. -/
def ErrorChain.new (context : γ) : ErrorChain γ ε :=
  { context := context, cause := none }

/-- Rust `ErrorChain::from`. -/
def ErrorChain.«from» (error : ε) (context : γ) : ErrorChain γ ε :=
  { context := context, cause := some error }

/-- Rust `<Result<T, E> as ErrorPropogation>::on_error`. -/
def Except.on_error (self : Except ε τ) (context : γ) : Except (ErrorChain γ ε) τ :=
  match self with
  | .ok val => .ok val
  | .error err => .error (ErrorChain.«from» err context)

/-- Rust `<Result<T, E> as ErrorPropogation>::do_on_error`; the lazily
computed context is a thunk `Unit → γ`, called only on the failure path. -/
def Except.do_on_error (self : Except ε τ) (contextFunc : Unit → γ) :
    Except (ErrorChain γ ε) τ :=
  match self with
  | .ok val => .ok val
  | .error err => .error (ErrorChain.«from» err (contextFunc ()))

/-- Rust `<Option<T> as ErrorPropogation>::on_error` (the cause type is
`Infallible` there; here it stays a parameter, and no cause is ever stored). -/
def Option.on_error (self : Option τ) (context : γ) : Except (ErrorChain γ ε) τ :=
  match self with
  | some val => .ok val
  | none => .error (ErrorChain.new context)

/-- Rust `<Option<T> as ErrorPropogation>::do_on_error`. -/
def Option.do_on_error (self : Option τ) (contextFunc : Unit → γ) :
    Except (ErrorChain γ ε) τ :=
  match self with
  | some val => .ok val
  | none => .error (ErrorChain.new (contextFunc ()))

/-! ### Properties of the primitive scan -/

lemma listSlice_drop (l : List α) (k a b : Nat) :
    listSlice (l.drop k) a b = listSlice l (k + a) (k + b) := by
  simp [listSlice, List.take_drop, List.drop_drop]

lemma findLoop_some [DecidableEq α] (source pattern offsetSlice : List α) (byteOffset : Nat) :
    ∀ fuel compareStart m,
      findLoop source pattern offsetSlice byteOffset compareStart fuel = some m →
      ∃ i, compareStart ≤ i ∧ i < offsetSlice.length ∧
        i + pattern.length ≤ offsetSlice.length ∧
        listSlice offsetSlice i (i + pattern.length) = pattern ∧
        m = ⟨i + byteOffset, pattern.length,
             listSlice source (i + byteOffset) (i + byteOffset + pattern.length)⟩ ∧
        ∀ j, compareStart ≤ j → j < i →
          listSlice offsetSlice j (j + pattern.length) ≠ pattern := by
  intro fuel
  induction fuel with
  | zero => intro cs m h; simp [findLoop] at h
  | succ fuel ih =>
    intro cs m h
    simp only [findLoop] at h
    split at h
    case isTrue hlt =>
      split at h
      case isTrue hover => simp at h
      case isFalse hover =>
        split at h
        case isTrue heq =>
          refine ⟨cs, Nat.le_refl cs, hlt, by omega, heq, ?_, ?_⟩
          · injection h with h'
            exact h'.symm
          · intro j h1 h2; omega
        case isFalse heq =>
          obtain ⟨i, hi1, hi2, hi3, hi4, hi5, hi6⟩ := ih (cs + 1) m h
          refine ⟨i, by omega, hi2, hi3, hi4, hi5, ?_⟩
          intro j hj1 hj2
          by_cases hj : j = cs
          · subst hj; exact heq
          · exact hi6 j (by omega) hj2
    case isFalse => simp at h

lemma findLoop_none [DecidableEq α] (source pattern offsetSlice : List α) (byteOffset : Nat) :
    ∀ fuel compareStart, offsetSlice.length ≤ compareStart + fuel →
      findLoop source pattern offsetSlice byteOffset compareStart fuel = none →
      ∀ i, compareStart ≤ i → i < offsetSlice.length →
        i + pattern.length ≤ offsetSlice.length →
        listSlice offsetSlice i (i + pattern.length) ≠ pattern := by
  intro fuel
  induction fuel with
  | zero => intro cs hfuel h i h1 h2 h3; omega
  | succ fuel ih =>
    intro cs hfuel h i h1 h2 h3
    simp only [findLoop] at h
    split at h
    case isTrue hlt =>
      split at h
      case isTrue hover => omega
      case isFalse hover =>
        split at h
        case isTrue heq => simp at h
        case isFalse heq =>
          intro habs
          by_cases hj : i = cs
          · subst hj; exact heq habs
          · exact ih (cs + 1) (by omega) h i (by omega) h2 h3 habs
    case isFalse hge => omega

lemma primFirst_some [DecidableEq α] {source pattern : List α} {byteOffset : Nat}
    {m : PatternMatch (List α)}
    (h : primFirst source pattern byteOffset = some m) :
    byteOffset ≤ m.index ∧ m.index < source.length ∧ m.length = pattern.length ∧
    m.index + m.length ≤ source.length ∧
    listSlice source m.index (m.index + m.length) = pattern ∧
    m.slice = listSlice source m.index (m.index + m.length) ∧
    ∀ j, byteOffset ≤ j → j < m.index → ¬ MatchAt source pattern j := by
  obtain ⟨i, hi1, hi2, hi3, hi4, hm, hmin⟩ :=
    findLoop_some source pattern (source.drop byteOffset) byteOffset
      (source.drop byteOffset).length 0 m h
  have hlen : (source.drop byteOffset).length = source.length - byteOffset :=
    List.length_drop _ _
  rw [hlen] at hi2 hi3
  have hshift : listSlice (source.drop byteOffset) i (i + pattern.length)
      = listSlice source (i + byteOffset) (i + byteOffset + pattern.length) := by
    have e1 : byteOffset + i = i + byteOffset := Nat.add_comm _ _
    have e2 : byteOffset + (i + pattern.length) = i + byteOffset + pattern.length := by omega
    rw [listSlice_drop, e1, e2]
  subst hm
  refine ⟨by simp, by simp; omega, rfl, by simp; omega, ?_, ?_, ?_⟩
  · simpa [hshift] using hi4
  · rfl
  · intro j hj1 hj2 hMA
    simp only at hj2
    have hja : j - byteOffset < i := by omega
    have hslice : listSlice (source.drop byteOffset) (j - byteOffset)
        (j - byteOffset + pattern.length) = pattern := by
      have e1 : byteOffset + (j - byteOffset) = j := by omega
      have e2 : byteOffset + (j - byteOffset + pattern.length) = j + pattern.length := by
        omega
      rw [listSlice_drop, e1, e2]
      exact hMA.2
    exact hmin (j - byteOffset) (Nat.zero_le _) hja hslice

lemma primFirst_none [DecidableEq α] {source pattern : List α} {byteOffset : Nat}
    (hp : pattern ≠ [])
    (h : primFirst source pattern byteOffset = none) :
    ∀ j, byteOffset ≤ j → ¬ MatchAt source pattern j := by
  intro j hj hMA
  have hplen : 1 ≤ pattern.length := by
    cases pattern
    · exact absurd rfl hp
    · simp
  have hjlen := hMA.1
  have hjlt : j < source.length := by omega
  have hlen : (source.drop byteOffset).length = source.length - byteOffset :=
    List.length_drop _ _
  have happ := findLoop_none source pattern (source.drop byteOffset) byteOffset
      (source.drop byteOffset).length 0 (by omega) h (j - byteOffset) (Nat.zero_le _)
      (by rw [hlen]; omega) (by rw [hlen]; omega)
  apply happ
  have e1 : byteOffset + (j - byteOffset) = j := by omega
  have e2 : byteOffset + (j - byteOffset + pattern.length) = j + pattern.length := by omega
  rw [listSlice_drop, e1, e2]
  exact hMA.2

lemma find_first_from_eq_ok [DecidableEq α] {source pattern : List α} {byteOffset : Nat}
    (hbo : byteOffset ≤ source.length) :
    find_first_from source pattern byteOffset = .ok (primFirst source pattern byteOffset) := by
  simp [find_first_from, primFirst, hbo]

lemma find_first_from_panics [DecidableEq α] {source pattern : List α} {byteOffset : Nat}
    (hbo : source.length < byteOffset) :
    find_first_from source pattern byteOffset = .error () := by
  rw [find_first_from, if_neg (by omega)]

lemma find_first_from_ok_cases [DecidableEq α] {source pattern : List α} {byteOffset : Nat}
    {r : Option (PatternMatch (List α))}
    (h : find_first_from source pattern byteOffset = .ok r) :
    byteOffset ≤ source.length ∧ primFirst source pattern byteOffset = r := by
  by_cases hbo : byteOffset ≤ source.length
  · refine ⟨hbo, ?_⟩
    rw [find_first_from_eq_ok hbo] at h
    injection h
  · rw [find_first_from_panics (by omega)] at h
    exact absurd h (by simp)

/-! ### Properties of the combinator loops -/

lemma findEveryLoop_stuck (ff : Nat → Except Unit (Option (PatternMatch MT)))
    (m : PatternMatch MT) (o : Nat) (hff : ff o = .ok (some m))
    (ho : PatternMatch.«end» m = o) :
    ∀ fuel acc, findEveryLoop ff fuel o acc = none := by
  intro fuel
  induction fuel with
  | zero => intro acc; rfl
  | succ fuel ih =>
    intro acc
    simp only [findEveryLoop, hff, ho]
    exact ih _

lemma findEveryLoop_spec (ff : Nat → Except Unit (Option (PatternMatch MT)))
    (H1 : ∀ o m, ff o = .ok (some m) → o ≤ m.index)
    (H2 : ∀ o m, ff o = .ok (some m) → m.length = 0 → ff m.index = .ok (some m)) :
    ∀ fuel offset acc ms, findEveryLoop ff fuel offset acc = some (.ok ms) →
      ∃ tail, ms = acc ++ tail ∧
        (∀ m ∈ tail, offset ≤ m.index ∧ 1 ≤ m.length) ∧
        List.Chain' (fun a b => a.index + a.length ≤ b.index ∧ a.index < b.index) tail := by
  intro fuel
  induction fuel with
  | zero => intro o acc ms h; simp [findEveryLoop] at h
  | succ fuel ih =>
    intro o acc ms h
    cases hff : ff o with
    | error e => simp [findEveryLoop, hff] at h
    | ok r =>
      cases r with
      | none =>
        simp [findEveryLoop, hff] at h
        subst h
        exact ⟨[], by simp, by simp, by simp⟩
      | some m =>
        simp only [findEveryLoop, hff] at h
        have hm1 : 1 ≤ m.length := by
          by_contra hlen
          have hlen0 : m.length = 0 := by omega
          have hff2 : ff (PatternMatch.«end» m) = .ok (some m) := by
            have he : PatternMatch.«end» m = m.index := by
              simp [PatternMatch.«end», hlen0]
            rw [he]
            exact H2 o m hff hlen0
          rw [findEveryLoop_stuck ff m (PatternMatch.«end» m) hff2 rfl fuel (acc ++ [m])] at h
          exact absurd h (by simp)
        obtain ⟨tail', ht1, ht2, ht3⟩ := ih (PatternMatch.«end» m) (acc ++ [m]) ms h
        refine ⟨m :: tail', by simp [ht1], ?_, ?_⟩
        · intro m' hm'
          rcases List.mem_cons.mp hm' with rfl | hm''
          · exact ⟨H1 o m' hff, hm1⟩
          · have h2 := ht2 m' hm''
            have h21 : m.index + m.length ≤ m'.index := h2.1
            have h3 := H1 o m hff
            exact ⟨by omega, h2.2⟩
        · cases tail' with
          | nil => simp
          | cons b t' =>
            rw [List.chain'_cons]
            refine ⟨⟨?_, ?_⟩, ht3⟩
            · exact (ht2 b (List.mem_cons_self b t')).1
            · have hb : m.index + m.length ≤ b.index := (ht2 b (List.mem_cons_self b t')).1
              omega

lemma findEveryLoop_mem (ff : Nat → Except Unit (Option (PatternMatch MT)))
    (Q : PatternMatch MT → Prop)
    (HQ : ∀ o m, ff o = .ok (some m) → Q m) :
    ∀ fuel offset acc ms, findEveryLoop ff fuel offset acc = some (.ok ms) →
      ∀ m ∈ ms, m ∈ acc ∨ Q m := by
  intro fuel
  induction fuel with
  | zero => intro o acc ms h; simp [findEveryLoop] at h
  | succ fuel ih =>
    intro o acc ms h
    cases hff : ff o with
    | error e => simp [findEveryLoop, hff] at h
    | ok r =>
      cases r with
      | none =>
        simp [findEveryLoop, hff] at h
        subst h
        intro m hm
        exact Or.inl hm
      | some mf =>
        simp only [findEveryLoop, hff] at h
        intro m hm
        rcases ih _ _ _ h m hm with hin | hq
        · rcases List.mem_append.mp hin with h1 | h2
          · exact Or.inl h1
          · rcases List.mem_singleton.mp h2 with rfl
            exact Or.inr (HQ o m hff)
        · exact Or.inr hq

lemma findEveryLoop_terminates (ff : Nat → Except Unit (Option (PatternMatch MT))) (L : Nat)
    (H1 : ∀ o m, ff o = .ok (some m) → o + 1 ≤ m.index + m.length ∧ m.index + m.length ≤ L)
    (H0 : ∀ o, o ≤ L → ff o ≠ .error ()) :
    ∀ fuel offset acc, offset ≤ L → L + 1 ≤ fuel + offset →
      ∃ ms, findEveryLoop ff fuel offset acc = some (.ok ms) := by
  intro fuel
  induction fuel with
  | zero => intro o acc h1 h2; omega
  | succ fuel ih =>
    intro o acc h1 h2
    cases hff : ff o with
    | error e =>
      cases e
      exact absurd hff (H0 o h1)
    | ok r =>
      cases r with
      | none => exact ⟨acc, by simp [findEveryLoop, hff]⟩
      | some m =>
        have hb := H1 o m hff
        have he : PatternMatch.«end» m = m.index + m.length := rfl
        obtain ⟨ms, hms⟩ := ih (PatternMatch.«end» m) (acc ++ [m]) (by omega) (by omega)
        exact ⟨ms, by simp only [findEveryLoop, hff]; exact hms⟩

lemma chainPairs_pairwise_lt :
    ∀ l : List (PatternMatch MT),
      List.Chain' (fun a b => a.index + a.length ≤ b.index ∧ a.index < b.index) l →
      List.Pairwise (fun a b : PatternMatch MT => a.index < b.index) l := by
  intro l
  induction l with
  | nil => intro _; exact List.Pairwise.nil
  | cons a t ih =>
    intro h
    cases t with
    | nil => simp
    | cons b t' =>
      rw [List.chain'_cons] at h
      have hp := ih h.2
      refine List.Pairwise.cons ?_ hp
      intro c hc
      rcases List.mem_cons.mp hc with rfl | hc'
      · exact h.1.2
      · have hb := (List.pairwise_cons.mp hp).1 c hc'
        exact Nat.lt_trans h.1.2 hb

lemma selectEarliest_some_ne (l : List (PatternMatch MT)) :
    ∀ b bIdx, selectEarliest l (some b) bIdx ≠ none := by
  induction l with
  | nil => intro b bIdx h; simp [selectEarliest] at h
  | cons c rest ih =>
    intro b bIdx h
    simp only [selectEarliest] at h
    split at h
    · exact ih _ _ h
    · exact ih _ _ h

lemma selectEarliest_nil_iff (l : List (PatternMatch MT)) (bIdx : Nat) :
    selectEarliest l none bIdx = none ↔ l = [] := by
  cases l with
  | nil => simp [selectEarliest]
  | cons c rest =>
    simp only [selectEarliest, Option.isNone_none, Bool.true_or, if_true]
    constructor
    · intro h
      exact absurd h (selectEarliest_some_ne rest c c.index)
    · intro h
      simp at h

lemma selectEarliest_mem (l : List (PatternMatch MT)) :
    ∀ best bIdx m, selectEarliest l best bIdx = some m → m ∈ l ∨ best = some m := by
  induction l with
  | nil =>
    intro best bIdx m h
    simp only [selectEarliest] at h
    exact Or.inr h
  | cons c rest ih =>
    intro best bIdx m h
    simp only [selectEarliest] at h
    split at h
    · rcases ih _ _ _ h with h1 | h2
      · exact Or.inl (List.mem_cons_of_mem _ h1)
      · rcases Option.some.inj h2 with rfl
        exact Or.inl (List.mem_cons_self _ _)
    · rcases ih _ _ _ h with h1 | h2
      · exact Or.inl (List.mem_cons_of_mem _ h1)
      · exact Or.inr h2

lemma selectEarliest_invariant (l : List (PatternMatch MT)) :
    ∀ b m, selectEarliest l (some b) b.index = some m →
      (m = b ∧ ∀ x ∈ l, b.index ≤ x.index) ∨
      (∃ pre post, l = pre ++ m :: post ∧ m.index < b.index ∧
        (∀ x ∈ pre, m.index < x.index) ∧ (∀ x ∈ post, m.index ≤ x.index)) := by
  induction l with
  | nil =>
    intro b m h
    simp only [selectEarliest] at h
    rcases Option.some.inj h with rfl
    exact Or.inl ⟨rfl, by simp⟩
  | cons c rest ih =>
    intro b m h
    simp only [selectEarliest, Option.isNone_some, Bool.false_or] at h
    split at h
    case isTrue hdec =>
      have hc : c.index < b.index := of_decide_eq_true hdec
      rcases ih c m h with ⟨rfl, hall⟩ | ⟨pre', post', heq, hlt, hpre, hpost⟩
      · refine Or.inr ⟨[], rest, by simp, hc, by simp, hall⟩
      · refine Or.inr ⟨c :: pre', post', by simp [heq], by omega, ?_, hpost⟩
        intro x hx
        rcases List.mem_cons.mp hx with rfl | hx'
        · omega
        · exact hpre x hx'
    case isFalse hdec =>
      have hc : b.index ≤ c.index := by
        have h2 : ¬ (c.index < b.index) := fun hx => hdec (decide_eq_true hx)
        omega
      rcases ih b m h with ⟨rfl, hall⟩ | ⟨pre', post', heq, hlt, hpre, hpost⟩
      · refine Or.inl ⟨rfl, ?_⟩
        intro x hx
        rcases List.mem_cons.mp hx with rfl | hx'
        · exact hc
        · exact hall x hx'
      · refine Or.inr ⟨c :: pre', post', by simp [heq], hlt, ?_, hpost⟩
        intro x hx
        rcases List.mem_cons.mp hx with rfl | hx'
        · omega
        · exact hpre x hx'

lemma selectEarliest_first_min (l : List (PatternMatch MT)) (bIdx : Nat)
    (m : PatternMatch MT) (h : selectEarliest l none bIdx = some m) :
    ∃ pre post, l = pre ++ m :: post ∧
      (∀ x ∈ pre, m.index < x.index) ∧ (∀ x ∈ post, m.index ≤ x.index) := by
  cases l with
  | nil => simp [selectEarliest] at h
  | cons c rest =>
    simp only [selectEarliest, Option.isNone_none, Bool.true_or, if_true] at h
    rcases selectEarliest_invariant rest c m h with ⟨rfl, hall⟩ | ⟨pre', post', heq, hlt, hpre, hpost⟩
    · exact ⟨[], rest, rfl, by simp, hall⟩
    · refine ⟨c :: pre', post', by simp [heq], ?_, hpost⟩
      intro x hx
      rcases List.mem_cons.mp hx with rfl | hx'
      · omega
      · exact hpre x hx'

lemma collectFirsts_eq_filterMap (ff : PT → Nat → Except Unit (Option (PatternMatch MT)))
    (g : PT → Option (PatternMatch MT)) (byteOffset : Nat)
    (hg : ∀ p, ff p byteOffset = .ok (g p)) :
    ∀ patterns, collectFirsts ff patterns byteOffset = .ok (patterns.filterMap g) := by
  intro patterns
  induction patterns with
  | nil => simp [collectFirsts]
  | cons p ps ih =>
    cases hp : g p with
    | none =>
      have hffp : ff p byteOffset = .ok none := by rw [hg p, hp]
      simp only [collectFirsts, hffp, List.filterMap_cons, hp]
      exact ih
    | some mf =>
      have hffp : ff p byteOffset = .ok (some mf) := by rw [hg p, hp]
      simp only [collectFirsts, hffp, List.filterMap_cons, hp, ih]

lemma collectFirsts_mem (ff : PT → Nat → Except Unit (Option (PatternMatch MT))) :
    ∀ patterns byteOffset l, collectFirsts ff patterns byteOffset = .ok l →
      ∀ m ∈ l, ∃ p ∈ patterns, ff p byteOffset = .ok (some m) := by
  intro patterns
  induction patterns with
  | nil =>
    intro bo l h m hm
    simp only [collectFirsts] at h
    rcases Except.ok.inj h with rfl
    simp at hm
  | cons p ps ih =>
    intro bo l h m hm
    cases hff : ff p bo with
    | error e => simp [collectFirsts, hff] at h
    | ok r =>
      cases r with
      | none =>
        simp only [collectFirsts, hff] at h
        obtain ⟨q, hq1, hq2⟩ := ih bo l h m hm
        exact ⟨q, List.mem_cons_of_mem _ hq1, hq2⟩
      | some mf =>
        simp only [collectFirsts, hff] at h
        cases hcf : collectFirsts ff ps bo with
        | error e => rw [hcf] at h; simp at h
        | ok l' =>
          rw [hcf] at h
          simp at h
          subst h
          rcases List.mem_cons.mp hm with rfl | hm'
          · exact ⟨p, List.mem_cons_self _ _, hff⟩
          · obtain ⟨q, hq1, hq2⟩ := ih bo l' hcf m hm'
            exact ⟨q, List.mem_cons_of_mem _ hq1, hq2⟩

lemma find_every_from_inv (ff : PT → Nat → Except Unit (Option (PatternMatch MT)))
    (pattern : PT) (byteOffset fuel : Nat) (fms : List (PatternMatch MT))
    (h : find_every_from ff pattern byteOffset fuel = some (.ok (some fms))) :
    findEveryLoop (ff pattern) fuel byteOffset [] = some (.ok fms) ∧ fms ≠ [] := by
  cases hl : findEveryLoop (ff pattern) fuel byteOffset [] with
  | none => simp [find_every_from, hl] at h
  | some r =>
    cases r with
    | error e => simp [find_every_from, hl] at h
    | ok l =>
      simp only [find_every_from, hl] at h
      by_cases he : l.isEmpty
      · simp [he] at h
      · have hfl : l = fms := by simpa [he] using h
        rw [hfl] at he
        exact ⟨by rw [hfl], by simpa [List.isEmpty_iff] using he⟩

lemma primFirst_nil [DecidableEq α] (source : List α) (o : Nat) (ho : o < source.length) :
    primFirst source ([] : List α) o = some ⟨o, 0, listSlice source o o⟩ := by
  unfold primFirst
  have hlen : (source.drop o).length = source.length - o := List.length_drop _ _
  cases hL : (source.drop o).length with
  | zero => omega
  | succ k =>
    simp [findLoop, listSlice, hL]

lemma primFirst_nil_match [DecidableEq α] (source : List α) (m : PatternMatch (List α))
    (h2 : m.index < source.length) (h3 : m.length = 0)
    (h6 : m.slice = listSlice source m.index (m.index + m.length)) :
    primFirst source ([] : List α) m.index = some m := by
  cases m with
  | mk i l s =>
    simp only at h2 h3 h6
    subst h3
    rw [primFirst_nil source i h2]
    simp only [Nat.add_zero] at h6
    rw [h6]

lemma findAllLoop_eq (ff : PT → Nat → Except Unit (Option (PatternMatch MT)))
    (byteOffset fuel : Nat) :
    ∀ (patterns : List PT) (rs : List (Option (List (PatternMatch MT))))
      (acc : List (PatternMatch MT)),
      patterns.map (fun p => find_every_from ff p byteOffset fuel) =
        rs.map (fun r => some (.ok r)) →
      findAllLoop ff byteOffset fuel patterns acc =
        some (.ok (acc ++ (rs.map (fun r => r.getD [])).flatten)) := by
  intro patterns
  induction patterns with
  | nil =>
    intro rs acc h
    have hrs : rs = [] := by
      cases rs with
      | nil => rfl
      | cons r rs' => simp at h
    subst hrs
    simp [findAllLoop]
  | cons p ps ih =>
    intro rs acc h
    cases rs with
    | nil => simp at h
    | cons r rs' =>
      simp only [List.map_cons, List.cons.injEq] at h
      obtain ⟨h1, h2⟩ := h
      cases r with
      | none =>
        simp only [findAllLoop, h1]
        rw [ih rs' acc h2]
        simp
      | some fms =>
        simp only [findAllLoop, h1]
        rw [ih rs' (acc ++ fms) h2]
        simp

lemma findAllLoop_mem (ff : PT → Nat → Except Unit (Option (PatternMatch MT)))
    (byteOffset fuel : Nat) (Q : PatternMatch MT → Prop)
    (HQ : ∀ p o m, ff p o = .ok (some m) → Q m) :
    ∀ patterns acc ms, findAllLoop ff byteOffset fuel patterns acc = some (.ok ms) →
      ∀ m ∈ ms, m ∈ acc ∨ Q m := by
  intro patterns
  induction patterns with
  | nil =>
    intro acc ms h m hm
    simp only [findAllLoop] at h
    simp at h
    subst h
    exact Or.inl hm
  | cons p ps ih =>
    intro acc ms h m hm
    cases hfe : find_every_from ff p byteOffset fuel with
    | none => simp [findAllLoop, hfe] at h
    | some r =>
      cases r with
      | error e => simp [findAllLoop, hfe] at h
      | ok ro =>
        cases ro with
        | none =>
          simp only [findAllLoop, hfe] at h
          exact ih acc ms h m hm
        | some fms =>
          simp only [findAllLoop, hfe] at h
          rcases ih (acc ++ fms) ms h m hm with hin | hq
          · rcases List.mem_append.mp hin with hacc | hfm
            · exact Or.inl hacc
            · obtain ⟨hloop, _⟩ := find_every_from_inv ff p byteOffset fuel fms hfe
              rcases findEveryLoop_mem (ff p) Q (fun o m hm' => HQ p o m hm')
                  fuel byteOffset [] fms hloop m hfm with hnil | hq'
              · simp at hnil
              · exact Or.inr hq'
          · exact Or.inr hq


/-! ### The claims -/

/-- C1 (amended): for every source sequence and pattern, if the offset passed
to `find_first_from` exceeds the source's length, the call panics (the Rust
slice expression `&self[byte_offset..]` is out of range), rather than
returning the absent result. -/
theorem claim1_offset_exceeding_length_panics {α : Type} [DecidableEq α]
    (source pattern : List α) (byteOffset : Nat) (h : source.length < byteOffset) :
    find_first_from source pattern byteOffset = .error () :=
  find_first_from_panics h

/-- C1 counterexample: at source `[1]`, pattern `[1]`, offset `2` the call
does not return the absent result `Except.ok none`; it panics. -/
theorem claim1_counterexample :
    find_first_from ([1] : List Nat) [1] 2 ≠ .ok none ∧
    find_first_from ([1] : List Nat) [1] 2 = .error () :=
  ⟨by decide, by decide⟩

/-- C1 witness: the amended theorem applied at source `[1]`, pattern `[1]`,
offset `2`. -/
theorem claim1_witness :
    find_first_from ([1] : List Nat) [1] 2 = .error () :=
  claim1_offset_exceeding_length_panics [1] [1] 2 (by decide)

/-- C2: if `find_first` yields a match `m`, the slice of the source at
`m.range()` equals the pattern exactly, and no occurrence of the pattern
starts at any index in `[0, m.start())`. -/
theorem claim2_find_first_correct {α : Type} [DecidableEq α]
    (source pattern : List α) (m : PatternMatch (List α))
    (h : find_first (find_first_from source) pattern = .ok (some m)) :
    listSlice source (PatternMatch.range m).1 (PatternMatch.range m).2 = pattern ∧
    ∀ j, j < PatternMatch.start m → ¬ MatchAt source pattern j := by
  have h' : find_first_from source pattern 0 = .ok (some m) := h
  obtain ⟨hbo, hpf⟩ := find_first_from_ok_cases h'
  obtain ⟨h1, h2, h3, h4, h5, h6, h7⟩ := primFirst_some hpf
  exact ⟨h5, fun j hj => h7 j (Nat.zero_le j) hj⟩

/-- C2 witness: the theorem applied at source `[1, 2, 3]`, pattern `[2, 3]`,
whose first match is `⟨1, 2, [2, 3]⟩`. -/
theorem claim2_witness :
    listSlice ([1, 2, 3] : List Nat)
        (PatternMatch.range (⟨1, 2, [2, 3]⟩ : PatternMatch (List Nat))).1
        (PatternMatch.range (⟨1, 2, [2, 3]⟩ : PatternMatch (List Nat))).2 = [2, 3] ∧
    ∀ j, j < PatternMatch.start (⟨1, 2, [2, 3]⟩ : PatternMatch (List Nat)) →
      ¬ MatchAt [1, 2, 3] [2, 3] j :=
  claim2_find_first_correct [1, 2, 3] [2, 3] ⟨1, 2, [2, 3]⟩ (by decide)

/-- C3 (amended): for every source, every NON-EMPTY pattern, and every
in-bounds offset, `find_first_from` returns the absent result iff the pattern
does not occur anywhere at a start index `≥ offset`.  (For the empty pattern
the code returns the absent result at `offset = length(source)` although the
empty pattern trivially occurs there; the spec leaves the empty pattern
unspecified.) -/
theorem claim3_none_iff_no_occurrence {α : Type} [DecidableEq α]
    (source pattern : List α) (byteOffset : Nat)
    (hp : pattern ≠ []) (hbo : byteOffset ≤ source.length) :
    find_first_from source pattern byteOffset = .ok none ↔
      ¬ Occurs source pattern byteOffset := by
  rw [find_first_from_eq_ok hbo]
  constructor
  · intro h hocc
    obtain ⟨i, hi, hMA⟩ := hocc
    exact primFirst_none hp (Except.ok.inj h) i hi hMA
  · intro h
    cases hpf : primFirst source pattern byteOffset with
    | none => rfl
    | some m =>
      obtain ⟨h1, h2, h3, h4, h5, h6, h7⟩ := primFirst_some hpf
      rw [h3] at h4 h5
      exact absurd ⟨m.index, h1, h4, h5⟩ h

/-- C3 counterexample: at source `[1]`, the empty pattern, and the in-bounds
offset `1`, the call returns the absent result although the empty pattern
occurs at index `1` of `[1]`; the claim's iff fails for empty patterns. -/
theorem claim3_counterexample :
    ¬ (find_first_from ([1] : List Nat) [] 1 = .ok none ↔
        ¬ Occurs ([1] : List Nat) [] 1) := by
  intro h
  exact (h.mp (by decide)) ⟨1, by decide⟩

/-- C3 witness: the amended theorem applied at source `[1, 2]`,
pattern `[3]`, offset `0`. -/
theorem claim3_witness :
    find_first_from ([1, 2] : List Nat) [3] 0 = .ok none ↔
      ¬ Occurs ([1, 2] : List Nat) [3] 0 :=
  claim3_none_iff_no_occurrence [1, 2] [3] 0 (by decide) (by decide)

/-- C7: each no-offset operation equals its offset-taking counterpart applied
at offset `0`: `find_first`, `find_every`, `find_any`, `find_all`. -/
theorem claim7_offset_zero_wrappers {PT MT : Type}
    (ff : PT → Nat → Except Unit (Option (PatternMatch MT)))
    (pattern : PT) (patterns : List PT) (fuel : Nat) :
    find_first ff pattern = ff pattern 0 ∧
    find_every ff pattern fuel = find_every_from ff pattern 0 fuel ∧
    find_any ff patterns = find_any_from ff patterns 0 ∧
    find_all ff patterns fuel = find_all_from ff patterns 0 fuel :=
  ⟨rfl, rfl, rfl, rfl⟩

/-- C9: on a successful result (`Ok`/`Some`), both the eager `on_error` and
the lazy `do_on_error` return the contained value unchanged, and the lazily
supplied context function is never evaluated on the success path (the result
does not depend on it). -/
theorem claim9_error_chain_success_path {τ γ ε : Type}
    (v : τ) (context : γ) (f g : Unit → γ) :
    Except.on_error (ε := ε) (.ok v) context = .ok v ∧
    Except.do_on_error (ε := ε) (.ok v) f = .ok v ∧
    Option.on_error (ε := ε) (some v) context = .ok v ∧
    Option.do_on_error (ε := ε) (some v) f = .ok v ∧
    Except.do_on_error (ε := ε) (.ok v) f = Except.do_on_error (ε := ε) (.ok v) g ∧
    Option.do_on_error (ε := ε) (some v) f = Option.do_on_error (ε := ε) (some v) g :=
  ⟨rfl, rfl, rfl, rfl, rfl, rfl⟩

/-- C10: for every non-empty pattern and in-bounds offset, the
`find_every_from` loop terminates; fuel `length(source) + 1` always suffices,
because every primitive match then has positive length, so the cursor
strictly increases on each iteration. -/
theorem claim10_find_every_terminates {α : Type} [DecidableEq α]
    (source pattern : List α) (byteOffset : Nat)
    (hp : pattern ≠ []) (hbo : byteOffset ≤ source.length) :
    ∃ res, find_every_from (find_first_from source) pattern byteOffset
      (source.length + 1) = some (.ok res) := by
  have H1 : ∀ o m, find_first_from source pattern o = .ok (some m) →
      o + 1 ≤ m.index + m.length ∧ m.index + m.length ≤ source.length := by
    intro o m hm
    obtain ⟨hbo', hpf⟩ := find_first_from_ok_cases hm
    obtain ⟨h1, h2, h3, h4, h5, h6, h7⟩ := primFirst_some hpf
    have hplen : 1 ≤ pattern.length := by
      cases pattern
      · exact absurd rfl hp
      · simp
    exact ⟨by omega, h4⟩
  have H0 : ∀ o, o ≤ source.length → find_first_from source pattern o ≠ .error () := by
    intro o ho
    rw [find_first_from_eq_ok ho]
    simp
  obtain ⟨ms, hms⟩ := findEveryLoop_terminates (find_first_from source pattern)
      source.length H1 H0 (source.length + 1) byteOffset [] hbo (by omega)
  refine ⟨if ms.isEmpty then none else some ms, ?_⟩
  simp only [find_every_from, hms]

/-- C10 witness: with source `[1, 2]`, pattern `[2]`, offset `0` and fuel
`3 = length + 1`, the loop terminates (the result is not the
out-of-fuel marker). -/
theorem claim10_witness :
    find_every_from (find_first_from ([1, 2] : List Nat)) [2] 0 3 ≠ none := by
  obtain ⟨res, h⟩ := claim10_find_every_terminates ([1, 2] : List Nat) [2] 0
    (by decide) (by decide)
  have h' : find_every_from (find_first_from ([1, 2] : List Nat)) [2] 0 3 =
      some (.ok res) := h
  rw [h']
  simp

/-- C4: every match sequence returned by `find_every_from` (hence also by
`find_every`, the offset-0 case) is non-overlapping — each next match starts
at or after the end of the previous one — and strictly increasing in start
index (so e.g. the self-overlapping pattern can never be reported at
overlapping positions). -/
theorem claim4_find_every_no_overlap {α : Type} [DecidableEq α]
    (source pattern : List α) (byteOffset fuel : Nat)
    (ms : List (PatternMatch (List α)))
    (h : find_every_from (find_first_from source) pattern byteOffset fuel =
      some (.ok (some ms))) :
    List.Chain' (fun a b => PatternMatch.«end» a ≤ PatternMatch.start b) ms ∧
    List.Pairwise (fun a b => PatternMatch.start a < PatternMatch.start b) ms := by
  obtain ⟨hloop, hne⟩ :=
    find_every_from_inv (find_first_from source) pattern byteOffset fuel ms h
  have H1 : ∀ o m, find_first_from source pattern o = .ok (some m) → o ≤ m.index := by
    intro o m hm
    obtain ⟨_, hpf⟩ := find_first_from_ok_cases hm
    exact (primFirst_some hpf).1
  have H2 : ∀ o m, find_first_from source pattern o = .ok (some m) → m.length = 0 →
      find_first_from source pattern m.index = .ok (some m) := by
    intro o m hm hlen
    obtain ⟨hbo', hpf⟩ := find_first_from_ok_cases hm
    obtain ⟨h1, h2, h3, h4, h5, h6, h7⟩ := primFirst_some hpf
    have hpat : pattern = [] := List.length_eq_zero.mp (by omega)
    subst hpat
    rw [find_first_from_eq_ok (Nat.le_of_lt h2)]
    rw [primFirst_nil_match source m h2 hlen h6]
  obtain ⟨tail, ht1, ht2, ht3⟩ := findEveryLoop_spec (find_first_from source pattern)
      H1 H2 fuel byteOffset [] ms hloop
  simp only [List.nil_append] at ht1
  subst ht1
  exact ⟨List.Chain'.imp (fun a b hab => hab.1) ht3, chainPairs_pairwise_lt _ ht3⟩

/-- C4 witness: the theorem applied to the self-overlapping pattern `[1, 1]`
in `[1, 1, 1, 1]`, whose matches are at `0` and `2` (never at `1`). -/
theorem claim4_witness :
    List.Chain' (fun a b => PatternMatch.«end» a ≤ PatternMatch.start b)
      [(⟨0, 2, [1, 1]⟩ : PatternMatch (List Nat)), ⟨2, 2, [1, 1]⟩] ∧
    List.Pairwise (fun a b => PatternMatch.start a < PatternMatch.start b)
      [(⟨0, 2, [1, 1]⟩ : PatternMatch (List Nat)), ⟨2, 2, [1, 1]⟩] :=
  claim4_find_every_no_overlap [1, 1, 1, 1] [1, 1] 0 5
    [⟨0, 2, [1, 1]⟩, ⟨2, 2, [1, 1]⟩] (by rfl)

/-- C5: for an in-bounds offset, `find_any_from` returns the absent result
iff no pattern matched; a returned match is the first minimum, in collection
order, of the per-pattern first matches: every earlier-collected match has a
strictly larger start index and every later one a larger-or-equal one (so on
ties the pattern appearing earlier in the collection wins); and a match is
returned whenever some pattern matched. -/
theorem claim5_find_any_earliest {α : Type} [DecidableEq α]
    (source : List α) (patterns : List (List α)) (byteOffset : Nat)
    (hbo : byteOffset ≤ source.length) :
    (find_any_from (find_first_from source) patterns byteOffset = .ok none ↔
      ∀ p ∈ patterns, primFirst source p byteOffset = none) ∧
    (∀ m, find_any_from (find_first_from source) patterns byteOffset = .ok (some m) →
      ∃ pre post,
        patterns.filterMap (fun p => primFirst source p byteOffset) = pre ++ m :: post ∧
        (∀ x ∈ pre, m.index < x.index) ∧ (∀ x ∈ post, m.index ≤ x.index)) ∧
    (patterns.filterMap (fun p => primFirst source p byteOffset) ≠ [] →
      ∃ m, find_any_from (find_first_from source) patterns byteOffset = .ok (some m)) := by
  have hcf := collectFirsts_eq_filterMap (find_first_from source)
      (fun p => primFirst source p byteOffset) byteOffset
      (fun p => find_first_from_eq_ok hbo) patterns
  have hfa : find_any_from (find_first_from source) patterns byteOffset =
      .ok (selectEarliest
        (patterns.filterMap (fun p => primFirst source p byteOffset)) none usizeMax) := by
    simp only [find_any_from, hcf]
  refine ⟨?_, ?_, ?_⟩
  · rw [hfa]
    constructor
    · intro h
      exact List.filterMap_eq_nil_iff.mp
        ((selectEarliest_nil_iff _ _).mp (Except.ok.inj h))
    · intro h
      rw [List.filterMap_eq_nil_iff.mpr h]
      rfl
  · intro m hm
    rw [hfa] at hm
    exact selectEarliest_first_min _ _ _ (Except.ok.inj hm)
  · intro hne
    rw [hfa]
    cases hse : selectEarliest
        (patterns.filterMap (fun p => primFirst source p byteOffset)) none usizeMax with
    | none => exact absurd ((selectEarliest_nil_iff _ _).mp hse) hne
    | some m => exact ⟨m, rfl⟩

/-- C5 witness: the theorem applied at source `[1, 2]` and patterns
`[[2], [1]]`; both patterns match, at `1` and `0`, and the returned match is
the one at `0` (the globally smallest start). -/
theorem claim5_witness :
    (find_any_from (find_first_from ([1, 2] : List Nat)) [[2], [1]] 0 = .ok none ↔
      ∀ p ∈ [[2], [1]], primFirst ([1, 2] : List Nat) p 0 = none) ∧
    (∀ m, find_any_from (find_first_from ([1, 2] : List Nat)) [[2], [1]] 0 =
        .ok (some m) →
      ∃ pre post,
        [[2], [1]].filterMap (fun p => primFirst ([1, 2] : List Nat) p 0) =
          pre ++ m :: post ∧
        (∀ x ∈ pre, m.index < x.index) ∧ (∀ x ∈ post, m.index ≤ x.index)) ∧
    ([[2], [1]].filterMap (fun p => primFirst ([1, 2] : List Nat) p 0) ≠ [] →
      ∃ m, find_any_from (find_first_from ([1, 2] : List Nat)) [[2], [1]] 0 =
        .ok (some m)) :=
  claim5_find_any_earliest [1, 2] [[2], [1]] 0 (by decide)

/-- C6: whenever every per-pattern `find_every_from` call completes with
result `rs_i`, `find_all_from` returns exactly the concatenation, in
collection order, of the per-pattern match lists — grouped by pattern, not
globally sorted by position — and returns the absent result iff every
per-pattern search found zero matches. -/
theorem claim6_find_all_grouped {α : Type} [DecidableEq α]
    (source : List α) (patterns : List (List α)) (byteOffset fuel : Nat)
    (rs : List (Option (List (PatternMatch (List α)))))
    (h : patterns.map (fun p => find_every_from (find_first_from source) p byteOffset fuel) =
          rs.map (fun r => some (.ok r))) :
    find_all_from (find_first_from source) patterns byteOffset fuel =
      some (.ok (if (rs.map (fun r => r.getD [])).flatten = [] then none
                 else some ((rs.map (fun r => r.getD [])).flatten))) := by
  have hloop := findAllLoop_eq (find_first_from source) byteOffset fuel patterns rs [] h
  simp only [find_all_from, hloop, List.nil_append]
  by_cases hj : (rs.map (fun r => r.getD [])).flatten = []
  · simp [hj]
  · simp [hj, List.isEmpty_iff]

/-- C6 witness: source `[1, 2, 1]`, patterns `[[1], [2]]`; the result is all
`[1]`-matches (`0` and `2`) followed by the `[2]`-match (`1`): grouped by
pattern, not sorted by position. -/
theorem claim6_witness :
    find_all_from (find_first_from ([1, 2, 1] : List Nat)) [[1], [2]] 0 4 =
      some (.ok (some [⟨0, 1, [1]⟩, ⟨2, 1, [1]⟩, ⟨1, 1, [2]⟩])) :=
  claim6_find_all_grouped [1, 2, 1] [[1], [2]] 0 4
    [some [⟨0, 1, [1]⟩, ⟨2, 1, [1]⟩], some [⟨1, 1, [2]⟩]] (by rfl)

/-- C8: the accessors satisfy `start = index`, `end = index + length`,
`range = (index, index + length)`; and every match produced by any search
operation (`find_first_from`, `find_every_from`, `find_any_from`,
`find_all_from`) on a source satisfies the data-model invariant
`index + length ≤ length(source)` with the stored view equal to
`source[index .. index + length]`. -/
theorem claim8_match_invariants {α : Type} [DecidableEq α] :
    (∀ m : PatternMatch (List α), PatternMatch.start m = m.index ∧
      PatternMatch.«end» m = m.index + m.length ∧
      PatternMatch.range m = (m.index, m.index + m.length)) ∧
    (∀ (source pattern : List α) (byteOffset : Nat) (m : PatternMatch (List α)),
      find_first_from source pattern byteOffset = .ok (some m) → MatchInv source m) ∧
    (∀ (source pattern : List α) (byteOffset fuel : Nat)
        (ms : List (PatternMatch (List α))),
      find_every_from (find_first_from source) pattern byteOffset fuel =
        some (.ok (some ms)) → ∀ m ∈ ms, MatchInv source m) ∧
    (∀ (source : List α) (patterns : List (List α)) (byteOffset : Nat)
        (m : PatternMatch (List α)),
      find_any_from (find_first_from source) patterns byteOffset = .ok (some m) →
      MatchInv source m) ∧
    (∀ (source : List α) (patterns : List (List α)) (byteOffset fuel : Nat)
        (ms : List (PatternMatch (List α))),
      find_all_from (find_first_from source) patterns byteOffset fuel =
        some (.ok (some ms)) → ∀ m ∈ ms, MatchInv source m) := by
  have hQ : ∀ (source pattern : List α) (o : Nat) (m : PatternMatch (List α)),
      find_first_from source pattern o = .ok (some m) → MatchInv source m := by
    intro source pattern o m hm
    obtain ⟨_, hpf⟩ := find_first_from_ok_cases hm
    obtain ⟨h1, h2, h3, h4, h5, h6, h7⟩ := primFirst_some hpf
    exact ⟨h4, h6⟩
  refine ⟨fun m => ⟨rfl, rfl, rfl⟩, fun source pattern bo m h => hQ source pattern bo m h,
    ?_, ?_, ?_⟩
  · intro source pattern bo fuel ms h m hm
    obtain ⟨hloop, _⟩ := find_every_from_inv _ _ _ _ _ h
    rcases findEveryLoop_mem (find_first_from source pattern) (MatchInv source)
        (fun o m hm' => hQ source pattern o m hm') fuel bo [] ms hloop m hm with h1 | h2
    · simp at h1
    · exact h2
  · intro source patterns bo m h
    cases hcf : collectFirsts (find_first_from source) patterns bo with
    | error e => simp [find_any_from, hcf] at h
    | ok l =>
      simp only [find_any_from, hcf] at h
      rcases selectEarliest_mem l none usizeMax m (Except.ok.inj h) with hin | hbest
      · obtain ⟨p, hp1, hp2⟩ := collectFirsts_mem _ patterns bo l hcf m hin
        exact hQ source p bo m hp2
      · simp at hbest
  · intro source patterns bo fuel ms h m hm
    cases hal : findAllLoop (find_first_from source) bo fuel patterns [] with
    | none => simp [find_all_from, hal] at h
    | some r =>
      cases r with
      | error e => simp [find_all_from, hal] at h
      | ok l =>
        simp only [find_all_from, hal] at h
        by_cases he : l.isEmpty
        · simp [he] at h
        · have hfl : l = ms := by simpa [he] using h
          subst hfl
          rcases findAllLoop_mem (find_first_from source) bo fuel (MatchInv source)
              (fun p o m hm' => hQ source p o m hm') patterns [] l hal m hm with h1 | h2
          · simp at h1
          · exact h2

/-- C8 witness: the theorem's five parts applied at concrete searches: the
accessors of `⟨3, 4, [9]⟩`, and the invariant for matches produced by
`find_first_from`, `find_every_from`, `find_any_from` and `find_all_from` on
small sources. -/
theorem claim8_witness :
    (PatternMatch.start (⟨3, 4, [9]⟩ : PatternMatch (List Nat)) = 3 ∧
     PatternMatch.«end» (⟨3, 4, [9]⟩ : PatternMatch (List Nat)) = 3 + 4 ∧
     PatternMatch.range (⟨3, 4, [9]⟩ : PatternMatch (List Nat)) = (3, 3 + 4)) ∧
    MatchInv ([1, 2] : List Nat) ⟨1, 1, [2]⟩ ∧
    MatchInv ([1, 2, 1] : List Nat) ⟨2, 1, [1]⟩ ∧
    MatchInv ([1, 2] : List Nat) ⟨0, 1, [1]⟩ ∧
    MatchInv ([1, 2] : List Nat) ⟨1, 1, [2]⟩ := by
  refine ⟨(claim8_match_invariants (α := Nat)).1 ⟨3, 4, [9]⟩, ?_, ?_, ?_, ?_⟩
  · exact (claim8_match_invariants (α := Nat)).2.1 [1, 2] [2] 0 ⟨1, 1, [2]⟩ (by rfl)
  · exact (claim8_match_invariants (α := Nat)).2.2.1 [1, 2, 1] [1] 0 4
      [⟨0, 1, [1]⟩, ⟨2, 1, [1]⟩] (by rfl) ⟨2, 1, [1]⟩ (by decide)
  · exact (claim8_match_invariants (α := Nat)).2.2.2.1 [1, 2] [[1]] 0 ⟨0, 1, [1]⟩ (by rfl)
  · exact (claim8_match_invariants (α := Nat)).2.2.2.2 [1, 2] [[2]] 0 3 [⟨1, 1, [2]⟩]
      (by rfl) ⟨1, 1, [2]⟩ (by decide)

/-- C5 counterexample: at source `[1]`, patterns `[[1]]` and the
out-of-bounds offset `2`, no pattern matched, yet the call panics instead of
returning the absent result — the claim's universal quantification over
offsets fails. -/
theorem claim5_counterexample :
    find_any_from (find_first_from ([1] : List Nat)) [[1]] 2 = .error () ∧
    find_any_from (find_first_from ([1] : List Nat)) [[1]] 2 ≠ .ok none := by
  have h : find_any_from (find_first_from ([1] : List Nat)) [[1]] 2 = .error () := by rfl
  refine ⟨h, ?_⟩
  rw [h]
  intro hc
  exact Except.noConfusion hc

/-- C6 counterexample: at source `[1]`, patterns `[[1]]` and the
out-of-bounds offset `2`, every per-pattern search found zero matches, yet
the call panics instead of returning the absent result — the claim's
universal quantification over offsets fails. -/
theorem claim6_counterexample :
    find_all_from (find_first_from ([1] : List Nat)) [[1]] 2 1 = some (.error ()) ∧
    find_all_from (find_first_from ([1] : List Nat)) [[1]] 2 1 ≠ some (.ok none) := by
  have h : find_all_from (find_first_from ([1] : List Nat)) [[1]] 2 1 =
      some (.error ()) := by rfl
  refine ⟨h, ?_⟩
  rw [h]
  intro hc
  exact Except.noConfusion (Option.some.inj hc)
